import Mathlib

/-!
Verification of the embedded SQLite fallback cache of `dynamics/utils.py`
(`SQLiteCache` and the `sqlite_method` connection wrapper).

Modelling choices:
* The `cache` table is a list of rows `(key, value, exp)`.  The semantics of
  the four SQL statements (`_get_sql`, `_set_sql`, `_delete_sql`, `_clear_sql`)
  over that list are translated directly from their SQL text, including the
  `ON CONFLICT(key) DO UPDATE` upsert of `_set_sql`.
* Timestamps are integers (`Int`): the code only adds a timeout to the current
  time (`_exp_timestamp`) and compares timestamps (`get`), so an ordered
  additive time type is faithful; the current UTC time is an explicit argument.
* The serializer (`pickle.dumps` / `pickle.loads`, external library code) is a
  parameter pair `stream`/`unstream`; a value `v` being "serializable" is the
  hypothesis `unstream (stream v) = v`.
* The `sqlite_method` decorator is modelled as a function from the body's
  outcome (`Except E A`) to the trace of connection events it performs plus
  the propagated outcome.
-/

set_option autoImplicit false

namespace Dynamics

/-- Serialized bytes (a `pickle.dumps` blob). -/
abbrev Bytes := List Nat

/-- One row of the `cache` table: `(key TEXT PRIMARY KEY, value BLOB, exp REAL)`. -/
structure Row where
  key : String
  value : Bytes
  exp : Int
  deriving DecidableEq, Repr

/-- The `cache` table contents. -/
abbrev Table := List Row

/-- Semantics of `_get_sql = "SELECT value, exp FROM cache WHERE key = :key"`
followed by `.fetchone()`: the first row whose key matches, if any. -/
def fetchone (table : Table) (key : String) : Option (Bytes × Int) :=
  (table.find? (fun r => r.key == key)).map (fun r => (r.value, r.exp))

/-- Semantics of `_set_sql = "INSERT INTO cache (key, value, exp) VALUES
(:key, :value, :exp) ON CONFLICT(key) DO UPDATE SET value = :value, exp = :exp"`:
if a row with the key exists it is updated in place, otherwise a new row is
appended. -/
def upsert (table : Table) (key : String) (value : Bytes) (exp : Int) : Table :=
  if table.any (fun r => r.key == key) then
    table.map (fun r => if r.key == key then ⟨key, value, exp⟩ else r)
  else
    table ++ [⟨key, value, exp⟩]

/-- Semantics of `_delete_sql = "DELETE FROM cache WHERE key = :key"`. -/
def deleteKey (table : Table) (key : String) : Table :=
  table.filter (fun r => !(r.key == key))

/-- Semantics of `_clear_sql = "DELETE FROM cache"`. -/
def clearAll (_table : Table) : Table := []

/-- Whether some row with the given key is stored. -/
def hasKey (table : Table) (key : String) : Bool :=
  table.any (fun r => r.key == key)

/-- Number of stored rows with the given key. -/
def countKey (table : Table) (key : String) : Nat :=
  (table.filter (fun r => r.key == key)).length

/-- The rows stored for the given key. -/
def rowsFor (table : Table) (key : String) : Table :=
  table.filter (fun r => r.key == key)

namespace SQLiteCache

/-- `SQLiteCache.DEFAULT_TIMEOUT = 300`. -/
def DEFAULT_TIMEOUT : Int := 300

/-- `SQLiteCache._exp_timestamp(timeout)`: the current UTC time plus the
timeout, as a timestamp. -/
def exp_timestamp (now : Int) (timeout : Int := DEFAULT_TIMEOUT) : Int :=
  now + timeout

/-- `SQLiteCache.get(key, default)` (body inside the `sqlite_method` wrapper):
fetch the row; if absent return the default; if its expiry is at or before the
current time, delete the row and return the default; otherwise decode the
stored blob.  Returns the result together with the table after the call. -/
def get {Value : Type} (unstream : Bytes → Value) (table : Table) (now : Int)
    (key : String) (default : Value) : Value × Table :=
  match fetchone table key with
  | none => (default, table)
  | some (value, exp) =>
    if exp ≤ now then (default, deleteKey table key)
    else (unstream value, table)

/-- `SQLiteCache.set(key, value, timeout)` (body inside the `sqlite_method`
wrapper): encode the value and upsert the row with expiry
`_exp_timestamp(timeout)`. -/
def set {Value : Type} (stream : Value → Bytes) (table : Table) (now : Int)
    (key : String) (value : Value) (timeout : Int := DEFAULT_TIMEOUT) : Table :=
  upsert table key (stream value) (exp_timestamp now timeout)

/-- `SQLiteCache.clear()` (body inside the `sqlite_method` wrapper). -/
def clear (table : Table) : Table :=
  clearAll table

/-- `SQLiteCache.DEFAULT_PRAGMA`, in the dictionary's insertion order, each
value rendered as `str()` renders it into `_set_pragma_equal = "PRAGMA {}={}"`. -/
def DEFAULT_PRAGMA : List (String × String) :=
  [("mmap_size", toString (2 ^ 26 : Nat)),
   ("cache_size", toString (8192 : Nat)),
   ("wal_autocheckpoint", toString (1000 : Nat)),
   ("auto_vacuum", "none"),
   ("synchronous", "off"),
   ("journal_mode", "wal"),
   ("temp_store", "memory")]

end SQLiteCache

/-- An observable event on the sqlite connection of one wrapped operation. -/
inductive SqlEvent where
  /-- `sqlite3.connect(self.connection_string)` -/
  | connect : SqlEvent
  /-- `PRAGMA name=value` (from `_apply_pragma`) -/
  | pragmaSet (name value : String) : SqlEvent
  /-- `PRAGMA name` (the `optimize` directive before closing) -/
  | pragmaRun (name : String) : SqlEvent
  /-- the wrapped method body runs -/
  | execBody : SqlEvent
  /-- `self.con.commit()` -/
  | commit : SqlEvent
  /-- `self.con.close()` -/
  | close : SqlEvent
  deriving DecidableEq, Repr

/-- `SQLiteCache._apply_pragma`: issue `PRAGMA k=v` for every entry of
`DEFAULT_PRAGMA`, in order. -/
def apply_pragma_events : List SqlEvent :=
  SQLiteCache.DEFAULT_PRAGMA.map (fun p => SqlEvent.pragmaSet p.1 p.2)

/-- The `sqlite_method` decorator: connect, apply the pragmas, run the body;
on success commit, then (on both paths) issue `PRAGMA optimize` and close; the
body's outcome (value or exception) is propagated unchanged.  The result is
the event trace paired with the propagated outcome. -/
def sqlite_method {E A : Type} (body : Except E A) : List SqlEvent × Except E A :=
  match body with
  | Except.ok v =>
    (SqlEvent.connect :: apply_pragma_events ++
      [SqlEvent.execBody, SqlEvent.commit, SqlEvent.pragmaRun "optimize", SqlEvent.close],
     Except.ok v)
  | Except.error e =>
    (SqlEvent.connect :: apply_pragma_events ++
      [SqlEvent.execBody, SqlEvent.pragmaRun "optimize", SqlEvent.close],
     Except.error e)

/-- `SQLiteCache.__init__`: `filepath = filename if path is None else
str(Path(path) / filename)` (path join for an already-normalised directory
path). -/
def filepath (filename : String) (path : Option String) : String :=
  match path with
  | none => filename
  | some p => p ++ "/" ++ filename

/-- `self.connection_string = f"{filepath}:?mode=memory&cache=shared"`. -/
def connection_string (filename : String) (path : Option String) : String :=
  filepath filename path ++ ":?mode=memory&cache=shared"

/-- The schema-visible state of the database behind one connection string:
whether the `cache` table and the `cache_key` index exist, and the stored
rows. -/
structure DB where
  hasTable : Bool
  hasIndex : Bool
  rows : Table
  deriving DecidableEq, Repr

/-- `CREATE TABLE [IF NOT EXISTS] cache (...)`: errors when the table already
exists and `IF NOT EXISTS` is absent; creating the table starts it empty. -/
def createTable (ifNotExists : Bool) (db : DB) : Except String DB :=
  if db.hasTable then
    if ifNotExists then Except.ok db
    else Except.error "table cache already exists"
  else
    Except.ok { hasTable := true, hasIndex := db.hasIndex, rows := [] }

/-- `CREATE UNIQUE INDEX [IF NOT EXISTS] cache_key ON cache(key)`. -/
def createIndex (ifNotExists : Bool) (db : DB) : Except String DB :=
  if db.hasIndex then
    if ifNotExists then Except.ok db
    else Except.error "index cache_key already exists"
  else
    Except.ok { db with hasIndex := true }

/-- `SQLiteCache.__init__` schema setup: execute `_create_sql` then
`_create_index_sql`, both of which carry `IF NOT EXISTS`. -/
def init_schema (db : DB) : Except String DB :=
  (createTable true db).bind (createIndex true)

/-! ### Helper lemmas about the SQL statement semantics -/

theorem fetchone_upsert_self (table : Table) (key : String) (value : Bytes) (exp : Int) :
    fetchone (upsert table key value exp) key = some (value, exp) := by
  induction table with
  | nil => simp [upsert, fetchone]
  | cons r rs ih =>
    by_cases hr : r.key = key
    · simp [upsert, fetchone, hr, List.any_cons]
    · have hany : ((r :: rs).any fun s => s.key == key) = (rs.any fun s => s.key == key) := by
        simp [List.any_cons, hr]
      by_cases h : (rs.any fun s => s.key == key) = true
      · simpa [upsert, fetchone, hany, h, hr] using ih
      · simpa [upsert, fetchone, hany, h, hr] using ih

theorem filter_replace_other (table : Table) (key key2 : String) (value : Bytes)
    (exp : Int) (hne : key2 ≠ key) :
    List.filter (fun r => r.key == key2)
        (table.map (fun r => if r.key == key then ⟨key, value, exp⟩ else r)) =
      List.filter (fun r => r.key == key2) table := by
  induction table with
  | nil => rfl
  | cons r rs ih =>
    simp only [beq_iff_eq] at ih
    by_cases hr : r.key = key
    · simp [hr, List.filter_cons, Ne.symm hne, ih]
    · simp [hr, List.filter_cons, ih]

theorem filter_replace_self_length (table : Table) (key : String) (value : Bytes)
    (exp : Int) :
    (List.filter (fun r => r.key == key)
        (table.map (fun r => if r.key == key then ⟨key, value, exp⟩ else r))).length =
      (List.filter (fun r => r.key == key) table).length := by
  induction table with
  | nil => rfl
  | cons r rs ih =>
    simp only [beq_iff_eq] at ih
    by_cases hr : r.key = key
    · simp [hr, List.filter_cons, ih]
    · simp [hr, List.filter_cons, ih]

theorem rowsFor_upsert_other (table : Table) (key key2 : String) (value : Bytes)
    (exp : Int) (hne : key2 ≠ key) :
    rowsFor (upsert table key value exp) key2 = rowsFor table key2 := by
  unfold upsert rowsFor
  by_cases h : (table.any fun r => r.key == key) = true
  · simpa [h] using filter_replace_other table key key2 value exp hne
  · simp [h, List.filter_append, Ne.symm hne]

theorem rowsFor_deleteKey_other (table : Table) (key key2 : String) (hne : key2 ≠ key) :
    rowsFor (deleteKey table key) key2 = rowsFor table key2 := by
  unfold deleteKey rowsFor
  induction table with
  | nil => rfl
  | cons r rs ih =>
    by_cases hr : r.key = key
    · simp [hr, List.filter_cons, Ne.symm hne, ih]
    · simp [List.filter_cons, hr, ih]

theorem hasKey_deleteKey_self (table : Table) (key : String) :
    hasKey (deleteKey table key) key = false := by
  unfold deleteKey hasKey
  induction table with
  | nil => rfl
  | cons r rs ih =>
    by_cases hr : r.key = key
    · simp [hr, List.filter_cons, ih]
    · simp [List.filter_cons, hr, List.any_cons, ih]

theorem countKey_eq_zero_of_not_hasKey (table : Table) (key : String)
    (h : hasKey table key = false) : countKey table key = 0 := by
  unfold hasKey at h
  unfold countKey
  induction table with
  | nil => rfl
  | cons r rs ih =>
    simp only [List.any_cons, Bool.or_eq_false_iff] at h
    simp [List.filter_cons, h.1, ih h.2]

theorem countKey_upsert_self (table : Table) (key : String) (value : Bytes) (exp : Int) :
    countKey (upsert table key value exp) key =
      if hasKey table key then countKey table key else countKey table key + 1 := by
  unfold upsert hasKey countKey
  by_cases h : (table.any fun r => r.key == key) = true
  · simpa [h] using filter_replace_self_length table key value exp
  · simp [h, List.filter_append]

theorem countKey_upsert_other (table : Table) (key key2 : String) (value : Bytes)
    (exp : Int) (hne : key2 ≠ key) :
    countKey (upsert table key value exp) key2 = countKey table key2 := by
  have h := rowsFor_upsert_other table key key2 value exp hne
  unfold rowsFor at h
  unfold countKey
  rw [h]

theorem fetchone_eq_none_of_not_hasKey (table : Table) (key : String)
    (h : hasKey table key = false) : fetchone table key = none := by
  unfold hasKey at h
  unfold fetchone
  induction table with
  | nil => rfl
  | cons r rs ih =>
    simp only [List.any_cons, Bool.or_eq_false_iff] at h
    simp only [List.find?_cons, h.1, ih h.2, Option.map_none]

theorem countKey_pos_of_hasKey (table : Table) (key : String)
    (h : hasKey table key = true) : 1 ≤ countKey table key := by
  unfold hasKey at h
  unfold countKey
  induction table with
  | nil => simp at h
  | cons r rs ih =>
    by_cases hr : r.key = key
    · simp [List.filter_cons, hr]
    · simp only [List.any_cons, Bool.or_eq_true, beq_iff_eq, hr, false_or] at h
      simpa [List.filter_cons, hr] using ih h

theorem countKey_upsert_of_le_one (table : Table) (key : String) (value : Bytes)
    (exp : Int) (h : countKey table key ≤ 1) :
    countKey (upsert table key value exp) key = 1 := by
  rw [countKey_upsert_self]
  by_cases hk : hasKey table key = true
  · have := countKey_pos_of_hasKey table key hk
    simp only [hk, if_true]
    omega
  · have hz := countKey_eq_zero_of_not_hasKey table key (by simpa using hk)
    simp [hk, hz]

theorem get_after_set {Value : Type} (stream : Value → Bytes) (unstream : Bytes → Value)
    (table : Table) (now now2 : Int) (key : String) (v : Value) (timeout : Int) (d : Value)
    (hser : unstream (stream v) = v)
    (hbefore : now2 < now + timeout) :
    SQLiteCache.get unstream (SQLiteCache.set stream table now key v timeout) now2 key d =
      (v, SQLiteCache.set stream table now key v timeout) := by
  unfold SQLiteCache.get SQLiteCache.set
  rw [fetchone_upsert_self]
  simp only [SQLiteCache.exp_timestamp]
  rw [if_neg (by omega), hser]

/-! ### Claim theorems -/

/-- C1: for every key `k` and serializable value `v` (one the serializer
round-trips), `set(k, v)` followed by `get(k, default)` at any time strictly
before the stored expiry `now + timeout` returns a value equal to `v`. -/
theorem set_get_roundtrip {Value : Type} (stream : Value → Bytes) (unstream : Bytes → Value)
    (table : Table) (now now2 : Int) (key : String) (v : Value) (timeout : Int) (d : Value)
    (hser : unstream (stream v) = v)
    (hbefore : now2 < now + timeout) :
    (SQLiteCache.get unstream (SQLiteCache.set stream table now key v timeout) now2 key d).1 = v := by
  rw [get_after_set stream unstream table now now2 key v timeout d hser hbefore]

theorem set_get_roundtrip_witness :
    (id ([1, 2] : Bytes) = [1, 2]) ∧ ((10 : Int) < 0 + 300) ∧
    (SQLiteCache.get id (SQLiteCache.set id [] 0 "k" ([1, 2] : Bytes) 300) 10 "k" []).1 = [1, 2] :=
  ⟨rfl, by decide,
    set_get_roundtrip id id [] 0 10 "k" [1, 2] 300 [] rfl (by decide)⟩

/-- C2: `get(k, d)` returns `d` when no row exists; when a row exists whose
expiry is at or before the current UTC time it deletes that row (no row for
`k` remains) and returns `d`; otherwise it decodes and returns the stored
value. -/
theorem get_lazy_expiration {Value : Type} (unstream : Bytes → Value) (table : Table)
    (now : Int) (key : String) (d : Value) :
    (fetchone table key = none →
      SQLiteCache.get unstream table now key d = (d, table)) ∧
    (∀ value exp, fetchone table key = some (value, exp) → exp ≤ now →
      SQLiteCache.get unstream table now key d = (d, deleteKey table key) ∧
      hasKey (deleteKey table key) key = false) ∧
    (∀ value exp, fetchone table key = some (value, exp) → now < exp →
      SQLiteCache.get unstream table now key d = (unstream value, table)) := by
  refine ⟨fun h => ?_, fun value exp h hle => ?_, fun value exp h hgt => ?_⟩
  · unfold SQLiteCache.get
    rw [h]
  · unfold SQLiteCache.get
    rw [h]
    exact ⟨by simp [hle], hasKey_deleteKey_self table key⟩
  · unfold SQLiteCache.get
    rw [h]
    simp [not_le.mpr hgt]

theorem get_lazy_expiration_witness :
    SQLiteCache.get (fun b => b) [⟨"k", [7], 5⟩] 5 "k" ([] : Bytes) = ([], []) ∧
    hasKey (deleteKey [⟨"k", [7], 5⟩] "k") "k" = false := by
  have h := (get_lazy_expiration (fun b => b) [⟨"k", [7], 5⟩] 5 "k" ([] : Bytes)).2.1
    [7] 5 (by decide) (by decide)
  exact ⟨h.1.trans (by decide), h.2⟩

/-- C3: a second `set` on the same key upserts in place: starting from a table
with at most one row per key, after `set(k, v1); set(k, v2)` exactly one row
for `k` exists, the whole table still has at most one row per key, and
`get(k, None)` (before expiry, with `v2` serializable) returns `v2`. -/
theorem set_upsert_single_row {Value : Type} (stream : Value → Bytes)
    (unstream : Bytes → Value) (table : Table) (now1 now2 now3 : Int) (key : String)
    (v1 v2 : Value) (t1 t2 : Int) (d : Value)
    (hser : unstream (stream v2) = v2)
    (hinv : ∀ k, countKey table k ≤ 1)
    (hbefore : now3 < now2 + t2) :
    countKey (SQLiteCache.set stream (SQLiteCache.set stream table now1 key v1 t1)
        now2 key v2 t2) key = 1 ∧
    (∀ k, countKey (SQLiteCache.set stream (SQLiteCache.set stream table now1 key v1 t1)
        now2 key v2 t2) k ≤ 1) ∧
    (SQLiteCache.get unstream (SQLiteCache.set stream (SQLiteCache.set stream table now1 key v1 t1)
        now2 key v2 t2) now3 key d).1 = v2 := by
  have h1 : ∀ k, countKey (SQLiteCache.set stream table now1 key v1 t1) k ≤ 1 := by
    intro k
    by_cases hk : k = key
    · subst hk
      exact le_of_eq (countKey_upsert_of_le_one table k (stream v1) _ (hinv k))
    · unfold SQLiteCache.set
      rw [countKey_upsert_other table key k (stream v1) _ hk]
      exact hinv k
  refine ⟨?_, ?_, ?_⟩
  · exact countKey_upsert_of_le_one _ key (stream v2) _ (h1 key)
  · intro k
    by_cases hk : k = key
    · subst hk
      exact le_of_eq (countKey_upsert_of_le_one _ k (stream v2) _ (h1 k))
    · unfold SQLiteCache.set
      rw [countKey_upsert_other _ key k (stream v2) _ hk]
      exact h1 k
  · rw [get_after_set stream unstream _ now2 now3 key v2 t2 d hser hbefore]

theorem set_upsert_single_row_witness :
    (id ([9] : Bytes) = [9]) ∧ (∀ k, countKey [] k ≤ 1) ∧ ((1 : Int) < 1 + 300) ∧
    countKey (SQLiteCache.set id (SQLiteCache.set id [] 0 "k" ([8] : Bytes) 300)
      1 "k" ([9] : Bytes) 300) "k" = 1 ∧
    (SQLiteCache.get id (SQLiteCache.set id (SQLiteCache.set id [] 0 "k" ([8] : Bytes) 300)
      1 "k" ([9] : Bytes) 300) 1 "k" ([] : Bytes)).1 = [9] := by
  have h := set_upsert_single_row id id [] 0 1 1 "k" ([8] : Bytes) [9] 300 300 []
    rfl (fun k => by simp [countKey]) (by decide)
  exact ⟨rfl, fun k => by simp [countKey], by decide, h.1, h.2.2⟩

/-- C4: `clear()` deletes every stored row unconditionally, and afterwards
`get(k, default)` returns `default` (leaving the table empty) for every key
and every default. -/
theorem clear_then_get_default {Value : Type} (unstream : Bytes → Value) (table : Table) :
    SQLiteCache.clear table = [] ∧
    ∀ (now : Int) (key : String) (d : Value),
      SQLiteCache.get unstream (SQLiteCache.clear table) now key d = (d, []) := by
  refine ⟨rfl, fun now key d => ?_⟩
  unfold SQLiteCache.get SQLiteCache.clear clearAll fetchone
  simp

/-- C5: `set(key, value, timeout)` stores the row with expiry
`now + timeout` (`_exp_timestamp`, whose default timeout is 300), and
whenever that expiry is at or before the time of the next `get` (in
particular for `timeout = 0`), that `get` returns the default. -/
theorem set_expiry_semantics {Value : Type} (stream : Value → Bytes)
    (unstream : Bytes → Value) (table : Table) (now now2 : Int) (key : String)
    (v : Value) (timeout : Int) (d : Value)
    (hexp : now + timeout ≤ now2) :
    SQLiteCache.exp_timestamp now timeout = now + timeout ∧
    SQLiteCache.DEFAULT_TIMEOUT = 300 ∧
    SQLiteCache.exp_timestamp now = now + 300 ∧
    fetchone (SQLiteCache.set stream table now key v timeout) key =
      some (stream v, now + timeout) ∧
    (SQLiteCache.get unstream (SQLiteCache.set stream table now key v timeout)
        now2 key d).1 = d := by
  refine ⟨rfl, rfl, rfl, fetchone_upsert_self table key (stream v) _, ?_⟩
  unfold SQLiteCache.get SQLiteCache.set
  rw [fetchone_upsert_self]
  simp only [SQLiteCache.exp_timestamp]
  rw [if_pos hexp]

theorem set_expiry_semantics_witness :
    ((0 : Int) + 0 ≤ 0) ∧
    fetchone (SQLiteCache.set id [] 0 "k" ([3] : Bytes) 0) "k" = some ([3], 0) ∧
    (SQLiteCache.get id (SQLiteCache.set id [] 0 "k" ([3] : Bytes) 0) 0 "k"
        ([] : Bytes)).1 = [] := by
  have h := set_expiry_semantics id id [] 0 0 "k" ([3] : Bytes) 0 [] (by decide)
  exact ⟨by decide, by simpa using h.2.2.2.1, h.2.2.2.2⟩

/-- C6: for every wrapped operation body: the outcome (value or error) is
propagated unchanged, the commit happens exactly when the body succeeded, and
on both exit paths the trace ends with the `PRAGMA optimize` directive
immediately followed by closing the connection. -/
theorem sqlite_method_lifecycle {E A : Type} (body : Except E A) :
    (sqlite_method body).2 = body ∧
    (SqlEvent.commit ∈ (sqlite_method body).1 ↔ ∃ v, body = Except.ok v) ∧
    (∃ pre, (sqlite_method body).1 =
      pre ++ [SqlEvent.pragmaRun "optimize", SqlEvent.close]) := by
  cases body with
  | ok v =>
    refine ⟨rfl,
      ⟨fun _ => ⟨v, rfl⟩,
       fun _ => by simp [sqlite_method, apply_pragma_events, SQLiteCache.DEFAULT_PRAGMA]⟩, ?_⟩
    exact ⟨SqlEvent.connect :: apply_pragma_events ++ [SqlEvent.execBody, SqlEvent.commit],
      by simp [sqlite_method]⟩
  | error e =>
    refine ⟨rfl, ⟨fun h => ?_, fun h => ?_⟩, ?_⟩
    · exact absurd h (by simp [sqlite_method, apply_pragma_events, SQLiteCache.DEFAULT_PRAGMA])
    · obtain ⟨v, hv⟩ := h
      exact absurd hv (by simp)
    · exact ⟨SqlEvent.connect :: apply_pragma_events ++ [SqlEvent.execBody],
        by simp [sqlite_method]⟩

/-- C7: every connection opened for a cache operation has exactly the seven
fixed pragma settings applied, with the constant values `mmap_size = 2^26`,
`cache_size = 8192`, `wal_autocheckpoint = 1000`, `auto_vacuum = none`,
`synchronous = off`, `journal_mode = wal`, `temp_store = memory`, in order,
after connecting and before the operation body runs; the wrapper takes no
per-call pragma arguments. -/
theorem pragma_constants :
    SQLiteCache.DEFAULT_PRAGMA =
      [("mmap_size", "67108864"), ("cache_size", "8192"),
       ("wal_autocheckpoint", "1000"), ("auto_vacuum", "none"),
       ("synchronous", "off"), ("journal_mode", "wal"),
       ("temp_store", "memory")] ∧
    (67108864 : Nat) = 2 ^ 26 ∧
    ∀ {E A : Type} (body : Except E A), ∃ rest,
      (sqlite_method body).1 =
        SqlEvent.connect :: (apply_pragma_events ++ SqlEvent.execBody :: rest) := by
  refine ⟨by decide, by decide, fun {E A} body => ?_⟩
  cases body with
  | ok v =>
    exact ⟨[SqlEvent.commit, SqlEvent.pragmaRun "optimize", SqlEvent.close], rfl⟩
  | error e =>
    exact ⟨[SqlEvent.pragmaRun "optimize", SqlEvent.close], rfl⟩

/-- C8: the connection identifier is exactly
`<resolved-path>:?mode=memory&cache=shared` (the resolved path being the file
name, prefixed by the containing path when given), and schema creation is
idempotent: `init_schema` always succeeds, running it again on its result is a
no-op success, and it preserves the rows of an existing table. -/
theorem construction_and_schema_idempotent (filename p : String) (db : DB) :
    connection_string filename none = filename ++ ":?mode=memory&cache=shared" ∧
    connection_string filename (some p) =
      p ++ "/" ++ filename ++ ":?mode=memory&cache=shared" ∧
    ∃ db2, init_schema db = Except.ok db2 ∧ init_schema db2 = Except.ok db2 ∧
      (db.hasTable = true → db2.rows = db.rows) := by
  obtain ⟨t, i, rows⟩ := db
  refine ⟨rfl, rfl, ?_⟩
  cases t with
  | false =>
    exact ⟨⟨true, true, []⟩,
      by cases i <;> simp [init_schema, createTable, createIndex, Except.bind],
      by simp [init_schema, createTable, createIndex, Except.bind],
      fun h => by simp at h⟩
  | true =>
    exact ⟨⟨true, true, rows⟩,
      by cases i <;> simp [init_schema, createTable, createIndex, Except.bind],
      by simp [init_schema, createTable, createIndex, Except.bind],
      fun _ => rfl⟩

theorem construction_and_schema_idempotent_witness :
    connection_string "dynamics.cache" (some "tmp") =
      "tmp/dynamics.cache:?mode=memory&cache=shared" ∧
    ∃ db2, init_schema ⟨true, true, [⟨"k", [1], 5⟩]⟩ = Except.ok db2 ∧
      init_schema db2 = Except.ok db2 ∧
      ((true : Bool) = true → db2.rows = [⟨"k", [1], 5⟩]) := by
  have h := construction_and_schema_idempotent "dynamics.cache" "tmp"
    ⟨true, true, [⟨"k", [1], 5⟩]⟩
  exact ⟨h.2.1, h.2.2⟩

/-- C9: `set` accepts a negative timeout: the stored expiry `now + t` is
strictly before the current time, and the very next `get` (at any time not
before `now`) returns the default and deletes the row. -/
theorem set_negative_timeout {Value : Type} (stream : Value → Bytes)
    (unstream : Bytes → Value) (table : Table) (now now2 : Int) (key : String)
    (v : Value) (t : Int) (d : Value)
    (hneg : t < 0) (hnow : now ≤ now2) :
    fetchone (SQLiteCache.set stream table now key v t) key =
      some (stream v, now + t) ∧
    now + t < now ∧
    SQLiteCache.get unstream (SQLiteCache.set stream table now key v t) now2 key d =
      (d, deleteKey (SQLiteCache.set stream table now key v t) key) ∧
    hasKey ((SQLiteCache.get unstream (SQLiteCache.set stream table now key v t)
        now2 key d).2) key = false := by
  have hfetch := fetchone_upsert_self table key (stream v) (now + t)
  have hget : SQLiteCache.get unstream (SQLiteCache.set stream table now key v t) now2 key d =
      (d, deleteKey (SQLiteCache.set stream table now key v t) key) := by
    unfold SQLiteCache.get SQLiteCache.set
    rw [fetchone_upsert_self]
    simp only [SQLiteCache.exp_timestamp]
    rw [if_pos (by omega)]
  refine ⟨hfetch, by omega, hget, ?_⟩
  rw [hget]
  exact hasKey_deleteKey_self _ key

theorem set_negative_timeout_witness :
    ((-5 : Int) < 0) ∧ ((0 : Int) ≤ 0) ∧
    SQLiteCache.get id (SQLiteCache.set id [] 0 "k" ([4] : Bytes) (-5)) 0 "k"
      ([] : Bytes) = ([], []) ∧
    hasKey ((SQLiteCache.get id (SQLiteCache.set id [] 0 "k" ([4] : Bytes) (-5)) 0 "k"
      ([] : Bytes)).2) "k" = false := by
  have h := set_negative_timeout id id [] 0 0 "k" ([4] : Bytes) (-5) []
    (by decide) (by decide)
  exact ⟨by decide, by decide, h.2.2.1.trans (by decide), h.2.2.2⟩

/-- C10: operations on one key never touch the rows of a distinct key: both
`set` and `get` on `key` leave the stored rows for any other key `key2`
unchanged. -/
theorem frame_other_keys {Value : Type} (stream : Value → Bytes)
    (unstream : Bytes → Value) (table : Table) (now : Int) (key key2 : String)
    (v : Value) (timeout : Int) (d : Value)
    (hne : key2 ≠ key) :
    rowsFor (SQLiteCache.set stream table now key v timeout) key2 = rowsFor table key2 ∧
    rowsFor ((SQLiteCache.get unstream table now key d).2) key2 = rowsFor table key2 := by
  refine ⟨rowsFor_upsert_other table key key2 (stream v) _ hne, ?_⟩
  unfold SQLiteCache.get
  cases h : fetchone table key with
  | none => rfl
  | some p =>
    obtain ⟨value, exp⟩ := p
    by_cases hle : exp ≤ now
    · simp only [hle, if_true]
      exact rowsFor_deleteKey_other table key key2 hne
    · simp [hle]

theorem frame_other_keys_witness :
    ("a" : String) ≠ "k" ∧
    rowsFor (SQLiteCache.set id [⟨"a", [1], 9⟩] 0 "k" ([2] : Bytes) 300) "a" =
      rowsFor [⟨"a", [1], 9⟩] "a" ∧
    rowsFor ((SQLiteCache.get id ([⟨"a", [1], 9⟩] : Table) 0 "k" ([] : Bytes)).2) "a" =
      rowsFor [⟨"a", [1], 9⟩] "a" := by
  have h := frame_other_keys id id [⟨"a", [1], 9⟩] 0 "k" "a" ([2] : Bytes) 300 []
    (by decide)
  exact ⟨by decide, h.1, h.2⟩

end Dynamics
